import Mathlib

/-!
Verification of the movie-list enrichment pipeline
(`enrich_movies_omdb_csv.py`) against its natural-language specification.

The Python source is shallowly embedded: cell values are `Option String`
(`none` models a missing value / `NaN`), the cache is an association list
from lookup keys to raw response values, the remote endpoint is an oracle
function indexed by the number of calls made so far, and the per-row loop
of `main` becomes an explicit state-passing fold.
-/

namespace MovieList

/-! ## TextNormalizer: `clean_text`, `normalize_year`, `make_key` -/

/-- Whitespace test, modelling the character class used both by Python's
`str.strip()` and by the regex class `\s` in `clean_text` (the program only
ever meets the ASCII whitespace characters). -/
def isWS (c : Char) : Bool :=
  c = ' ' || c = '\t' || c = '\n' || c = '\r' || c = '\x0b' || c = '\x0c'

/-- Character-wise replacement of the four typographic quote characters,
modelling the chained `str.replace` calls in `clean_text`. -/
def fixQuote (c : Char) : Char :=
  if c = '’' || c = '‘' then '\''
  else if c = '“' || c = '”' then '"'
  else c

/-- `str.strip()`: drop whitespace from both ends. -/
def stripList (l : List Char) : List Char :=
  ((l.dropWhile isWS).reverse.dropWhile isWS).reverse

/-- Worker for `re.sub(r"\s+", " ", s)`: each maximal whitespace run is
replaced by a single space.  The flag records whether we are inside a
whitespace run whose replacement space has already been emitted. -/
def collapseAux : Bool → List Char → List Char
  | _, [] => []
  | afterWS, c :: rest =>
    if isWS c then
      if afterWS then collapseAux true rest
      else ' ' :: collapseAux true rest
    else c :: collapseAux false rest

/-- `re.sub(r"\s+", " ", s)`. -/
def collapse (l : List Char) : List Char := collapseAux false l

/-- `clean_text` (source lines 33-46): `None`/`NaN` becomes `""`; otherwise
normalize smart quotes, strip, and collapse whitespace runs. -/
def clean_text (x : Option String) : String :=
  match x with
  | none => ""
  | some s => ⟨collapse (stripList (s.data.map fixQuote))⟩

/-- `normalize_year` (source lines 49-52): keep the cleaned value only when
it is exactly four decimal digits. -/
def normalize_year (x : Option String) : String :=
  if (clean_text x).length = 4 && (clean_text x).data.all Char.isDigit then clean_text x else ""

/-- `str.lower()` on the ASCII range met by the program. -/
def strLower (s : String) : String := ⟨s.data.map Char.toLower⟩

/-- `make_key` (source lines 81-82): `title.strip().lower() + "||" + year.strip()`. -/
def make_key (title year : String) : String :=
  strLower ⟨stripList title.data⟩ ++ "||" ++ ⟨stripList year.data⟩

/-- The key computed by `main` for a row (source lines 146-151): the title
cell is cleaned and the year cell normalized before `make_key` is applied. -/
def pipelineKey (titleCell yearCell : Option String) : String :=
  make_key (clean_text titleCell) (normalize_year yearCell)

end MovieList

namespace MovieList

/-! ## Shape of cleaned strings -/

/-- The head, if any, is not whitespace. -/
def leadOk : List Char → Bool
  | [] => true
  | c :: _ => !isWS c

/-- The last element, if any, is not whitespace. -/
def lastOk : List Char → Bool
  | [] => true
  | [c] => !isWS c
  | _ :: c :: rest => lastOk (c :: rest)

/-- Every whitespace character is a plain space directly followed by a
non-whitespace character: no whitespace runs, no trailing whitespace. -/
def noRun : List Char → Bool
  | [] => true
  | c :: rest => (if isWS c then c == ' ' && leadOk rest else true) && noRun rest

theorem dropWhile_eq_self_of_leadOk {l : List Char} (h : leadOk l = true) :
    l.dropWhile isWS = l := by
  cases l with
  | nil => rfl
  | cons c t =>
    simp only [leadOk, Bool.not_eq_true'] at h
    simp [List.dropWhile_cons, h]

theorem leadOk_dropWhile (l : List Char) : leadOk (l.dropWhile isWS) = true := by
  induction l with
  | nil => rfl
  | cons c t ih =>
    by_cases h : isWS c = true
    · simpa [List.dropWhile_cons, h] using ih
    · simp only [Bool.not_eq_true] at h
      simp [List.dropWhile_cons, h, leadOk]

theorem lastOk_cons {c : Char} {t : List Char} (h : t ≠ []) :
    lastOk (c :: t) = lastOk t := by
  cases t with
  | nil => exact absurd rfl h
  | cons d u => rfl

theorem leadOk_reverse (l : List Char) : leadOk l.reverse = lastOk l := by
  induction l with
  | nil => rfl
  | cons c t ih =>
    cases t with
    | nil => rfl
    | cons d u =>
      show leadOk (c :: d :: u).reverse = lastOk (d :: u)
      rw [← ih, List.reverse_cons]
      cases hrev : (d :: u).reverse with
      | nil => simp at hrev
      | cons e v => simp [leadOk]

theorem lastOk_reverse (l : List Char) : lastOk l.reverse = leadOk l := by
  have h := leadOk_reverse l.reverse
  rw [List.reverse_reverse] at h
  exact h.symm

theorem lastOk_dropWhile {l : List Char} (h : lastOk l = true) :
    lastOk (l.dropWhile isWS) = true := by
  induction l with
  | nil => exact h
  | cons c t ih =>
    by_cases hc : isWS c = true
    · rw [List.dropWhile_cons_of_pos hc]
      apply ih
      cases t with
      | nil => simp [lastOk, hc] at h
      | cons d u => exact h
    · rw [List.dropWhile_cons_of_neg (by simp [hc])]
      exact h

theorem leadOk_stripList (l : List Char) : leadOk (stripList l) = true := by
  unfold stripList
  rw [leadOk_reverse]
  apply lastOk_dropWhile
  rw [lastOk_reverse]
  exact leadOk_dropWhile l

theorem lastOk_stripList (l : List Char) : lastOk (stripList l) = true := by
  unfold stripList
  rw [lastOk_reverse]
  exact leadOk_dropWhile _

theorem stripList_eq_self {l : List Char} (h1 : leadOk l = true) (h2 : lastOk l = true) :
    stripList l = l := by
  unfold stripList
  rw [dropWhile_eq_self_of_leadOk h1,
    dropWhile_eq_self_of_leadOk (by rw [leadOk_reverse]; exact h2), List.reverse_reverse]

end MovieList

namespace MovieList

theorem collapseAux_leadOk {l : List Char} (h : leadOk l = true) :
    leadOk (collapseAux false l) = true := by
  cases l with
  | nil => rfl
  | cons c t =>
    simp only [leadOk, Bool.not_eq_true'] at h
    simp [collapseAux, h, leadOk]

theorem collapseAux_noRun : ∀ (l : List Char) (b : Bool),
    noRun (collapseAux b l) = true ∧ (b = true → leadOk (collapseAux b l) = true) := by
  intro l
  induction l with
  | nil => intro b; exact ⟨rfl, fun _ => rfl⟩
  | cons c t ih =>
    intro b
    by_cases hc : isWS c = true
    · cases b with
      | true =>
        have ht := ih true
        constructor
        · simpa [collapseAux, hc] using ht.1
        · intro _
          simpa [collapseAux, hc] using ht.2 rfl
      | false =>
        have ht := ih true
        constructor
        · have hsp : isWS ' ' = true := by decide
          simp [collapseAux, hc, noRun, hsp, ht.1, ht.2 rfl]
        · intro hb; cases hb
    · have ht := ih false
      simp only [Bool.not_eq_true] at hc
      constructor
      · simp [collapseAux, hc, noRun, ht.1]
      · intro _
        simp [collapseAux, hc, leadOk]

theorem collapseAux_lastOk : ∀ (l : List Char), lastOk l = true → l ≠ [] →
    ∀ b, collapseAux b l ≠ [] ∧ lastOk (collapseAux b l) = true := by
  intro l
  induction l with
  | nil => intro _ hne; exact absurd rfl hne
  | cons c t ih =>
    intro h _ b
    cases t with
    | nil =>
      have hc : isWS c = false := by
        simpa [lastOk, Bool.not_eq_true'] using h
      cases b with
      | true => simp [collapseAux, hc, lastOk]
      | false => simp [collapseAux, hc, lastOk]
    | cons d u =>
      have hlt : lastOk (d :: u) = true := h
      by_cases hc : isWS c = true
      · have h3 := ih hlt (by simp) true
        cases b with
        | true =>
          constructor
          · simpa [collapseAux, hc] using h3.1
          · simpa [collapseAux, hc] using h3.2
        | false =>
          constructor
          · simp [collapseAux, hc]
          · have : collapseAux false (c :: d :: u) = ' ' :: collapseAux true (d :: u) := by
              simp [collapseAux, hc]
            rw [this, lastOk_cons h3.1]
            exact h3.2
      · simp only [Bool.not_eq_true] at hc
        have h3 := ih hlt (by simp) false
        constructor
        · simp [collapseAux, hc]
        · have : collapseAux b (c :: d :: u) = c :: collapseAux false (d :: u) := by
            simp [collapseAux, hc]
          rw [this, lastOk_cons h3.1]
          exact h3.2

theorem collapseAux_fix : ∀ (l : List Char), noRun l = true →
    collapseAux false l = l ∧ (leadOk l = true → collapseAux true l = l) := by
  intro l
  induction l with
  | nil => intro _; exact ⟨rfl, fun _ => rfl⟩
  | cons c t ih =>
    intro h
    simp only [noRun, Bool.and_eq_true] at h
    by_cases hc : isWS c = true
    · rw [if_pos hc] at h
      have hrun := h.2
      obtain ⟨hsp, hlead⟩ := (Bool.and_eq_true _ _).mp h.1
      have hceq : c = ' ' := eq_of_beq hsp
      have ht := (ih hrun).2 hlead
      subst hceq
      have hsp2 : isWS ' ' = true := by decide
      constructor
      · simp [collapseAux, hsp2, ht]
      · intro hl
        have hfa : leadOk (' ' :: t) = false := by
          simp [leadOk, hsp2]
        rw [hl] at hfa
        cases hfa
    · rw [if_neg hc] at h
      simp only [Bool.not_eq_true] at hc
      have ht := (ih h.2).1
      exact ⟨by simp [collapseAux, hc, ht], fun _ => by simp [collapseAux, hc, ht]⟩

end MovieList

namespace MovieList

theorem mem_collapseAux {c : Char} :
    ∀ {l : List Char} {b : Bool}, c ∈ collapseAux b l → c = ' ' ∨ c ∈ l := by
  intro l
  induction l with
  | nil => intro b h; cases h
  | cons d t ih =>
    intro b h
    by_cases hd : isWS d = true
    · cases b with
      | true =>
        rw [show collapseAux true (d :: t) = collapseAux true t by simp [collapseAux, hd]] at h
        rcases ih h with h1 | h1
        · exact Or.inl h1
        · exact Or.inr (List.mem_cons_of_mem _ h1)
      | false =>
        rw [show collapseAux false (d :: t) = ' ' :: collapseAux true t by
          simp [collapseAux, hd]] at h
        rcases List.mem_cons.mp h with h1 | h1
        · exact Or.inl h1
        · rcases ih h1 with h2 | h2
          · exact Or.inl h2
          · exact Or.inr (List.mem_cons_of_mem _ h2)
    · simp only [Bool.not_eq_true] at hd
      rw [show collapseAux b (d :: t) = d :: collapseAux false t by simp [collapseAux, hd]] at h
      rcases List.mem_cons.mp h with h1 | h1
      · exact Or.inr (h1 ▸ List.mem_cons_self _ _)
      · rcases ih h1 with h2 | h2
        · exact Or.inl h2
        · exact Or.inr (List.mem_cons_of_mem _ h2)

theorem mem_stripList {c : Char} {l : List Char} (h : c ∈ stripList l) : c ∈ l := by
  unfold stripList at h
  rw [List.mem_reverse] at h
  have h2 : c ∈ (l.dropWhile isWS).reverse :=
    List.Sublist.mem h (List.dropWhile_sublist _)
  rw [List.mem_reverse] at h2
  exact List.Sublist.mem h2 (List.dropWhile_sublist _)

theorem fixQuote_fixQuote (c : Char) : fixQuote (fixQuote c) = fixQuote c := by
  by_cases h1 : (c = '’' || c = '‘') = true
  · simp only [fixQuote, if_pos h1]; decide
  · by_cases h2 : (c = '“' || c = '”') = true
    · simp only [fixQuote, if_neg h1, if_pos h2]; decide
    · simp only [fixQuote, if_neg h1, if_neg h2]

theorem clean_data (s : String) :
    (clean_text (some s)).data = collapse (stripList (s.data.map fixQuote)) := rfl

theorem mem_clean_fixed {x : Option String} {c : Char}
    (h : c ∈ (clean_text x).data) : fixQuote c = c := by
  cases x with
  | none => cases h
  | some s =>
    rw [clean_data] at h
    rcases mem_collapseAux h with h1 | h1
    · rw [h1]; decide
    · rcases List.mem_map.mp (mem_stripList h1) with ⟨d, _, hd⟩
      rw [← hd]
      exact fixQuote_fixQuote d

theorem leadOk_clean (x : Option String) : leadOk (clean_text x).data = true := by
  cases x with
  | none => rfl
  | some s =>
    rw [clean_data]
    exact collapseAux_leadOk (leadOk_stripList _)

theorem lastOk_clean (x : Option String) : lastOk (clean_text x).data = true := by
  cases x with
  | none => rfl
  | some s =>
    rw [clean_data]
    by_cases hne : stripList (s.data.map fixQuote) = []
    · rw [hne]; rfl
    · exact (collapseAux_lastOk _ (lastOk_stripList _) hne false).2

theorem noRun_clean (x : Option String) : noRun (clean_text x).data = true := by
  cases x with
  | none => rfl
  | some s =>
    rw [clean_data]
    exact (collapseAux_noRun _ false).1

theorem clean_text_idem (x : Option String) :
    clean_text (some (clean_text x)) = clean_text x := by
  have hmap : (clean_text x).data.map fixQuote = (clean_text x).data := by
    have h1 : (clean_text x).data.map fixQuote = (clean_text x).data.map id :=
      List.map_congr_left fun a ha => mem_clean_fixed ha
    rw [h1, List.map_id]
  have hstrip : stripList (clean_text x).data = (clean_text x).data :=
    stripList_eq_self (leadOk_clean x) (lastOk_clean x)
  have hcol : collapse (clean_text x).data = (clean_text x).data :=
    (collapseAux_fix _ (noRun_clean x)).1
  show (⟨collapse (stripList ((clean_text x).data.map fixQuote))⟩ : String) = clean_text x
  rw [hmap, hstrip, hcol]

theorem noRun_chain {l : List Char} (h : noRun l = true) :
    List.Chain' (fun a b => isWS a = false ∨ isWS b = false) l := by
  induction l with
  | nil => exact List.chain'_nil
  | cons c t ih =>
    rw [List.chain'_cons']
    simp only [noRun, Bool.and_eq_true] at h
    refine ⟨?_, ih h.2⟩
    intro y hy
    by_cases hc : isWS c = true
    · right
      have h1 := h.1
      rw [if_pos hc] at h1
      have hlead := ((Bool.and_eq_true _ _).mp h1).2
      cases t with
      | nil => cases hy
      | cons d u =>
        have hyd : d = y := by simpa using hy
        subst hyd
        simpa [leadOk, Bool.not_eq_true'] using hlead
    · exact Or.inl (by simpa using hc)

theorem leadOk_head {l : List Char} (h : leadOk l = true) :
    (l.head?.all fun c => !isWS c) = true := by
  cases l with
  | nil => rfl
  | cons c t => exact h

theorem lastOk_getLast : ∀ {l : List Char}, lastOk l = true →
    (l.getLast?.all fun c => !isWS c) = true := by
  intro l
  induction l with
  | nil => intro _; rfl
  | cons c t ih =>
    intro h
    cases t with
    | nil => exact h
    | cons d u =>
      rw [List.getLast?_cons_cons]
      exact ih h

end MovieList

namespace MovieList

/-- Claim C8: `clean_text` is total — a missing/null cell (`none`) maps to
the empty string and every other input yields a result — idempotent
(`clean_text (clean_text s) = clean_text s`), and its output contains no
run of two or more whitespace characters and no leading or trailing
whitespace. -/
theorem claim_C8 (x : Option String) :
    clean_text none = ""
    ∧ clean_text (some (clean_text x)) = clean_text x
    ∧ List.Chain' (fun a b => isWS a = false ∨ isWS b = false) (clean_text x).data
    ∧ ((clean_text x).data.head?.all fun c => !isWS c) = true
    ∧ ((clean_text x).data.getLast?.all fun c => !isWS c) = true :=
  ⟨rfl, clean_text_idem x, noRun_chain (noRun_clean x),
    leadOk_head (leadOk_clean x), lastOk_getLast (lastOk_clean x)⟩

end MovieList

namespace MovieList

theorem strip_clean (x : Option String) :
    stripList (clean_text x).data = (clean_text x).data :=
  stripList_eq_self (leadOk_clean x) (lastOk_clean x)

theorem ny_shape (y : Option String) :
    normalize_year y = ""
    ∨ ((normalize_year y).data.length = 4
        ∧ (normalize_year y).data.all Char.isDigit = true) := by
  unfold normalize_year
  by_cases h : ((clean_text y).length = 4 && (clean_text y).data.all Char.isDigit) = true
  · right
    rw [if_pos h]
    obtain ⟨h1, h2⟩ := (Bool.and_eq_true _ _).mp h
    exact ⟨of_decide_eq_true h1, h2⟩
  · left
    rw [if_neg h]

theorem strip_ny (y : Option String) :
    stripList (normalize_year y).data = (normalize_year y).data := by
  unfold normalize_year
  by_cases h : ((clean_text y).length = 4 && (clean_text y).data.all Char.isDigit) = true
  · rw [if_pos h]; exact strip_clean y
  · rw [if_neg h]; rfl

theorem pipelineKey_eq (t y : Option String) :
    pipelineKey t y = strLower (clean_text t) ++ "||" ++ normalize_year y := by
  unfold pipelineKey make_key
  have h1 : (⟨stripList (clean_text t).data⟩ : String) = clean_text t :=
    String.ext (strip_clean t)
  have h2 : (⟨stripList (normalize_year y).data⟩ : String) = normalize_year y :=
    String.ext (strip_ny y)
  rw [h1, h2]

theorem year_suffix_inj {A B n1 n2 : String}
    (s1 : n1 = "" ∨ (n1.data.length = 4 ∧ n1.data.all Char.isDigit = true))
    (s2 : n2 = "" ∨ (n2.data.length = 4 ∧ n2.data.all Char.isDigit = true))
    (h : A ++ "||" ++ n1 = B ++ "||" ++ n2) : n1 = n2 := by
  have hd : A.data ++ (['|', '|'] ++ n1.data) = B.data ++ (['|', '|'] ++ n2.data) := by
    have hc := congrArg String.data h
    simpa [String.data_append, List.append_assoc] using hc
  have pipeNotDigit : ('|').isDigit = false := by decide
  rcases s1 with h1 | h1 <;> rcases s2 with h2 | h2
  · rw [h1, h2]
  · exfalso
    have h1d : n1.data = [] := congrArg String.data h1
    have h2ne : n2.data ≠ [] := by
      intro hz
      rw [hz] at h2
      cases h2.1
    obtain ⟨d, hdl⟩ := Option.isSome_iff_exists.mp (List.getLast?_isSome.mpr h2ne)
    have hlast := congrArg List.getLast? hd
    rw [h1d] at hlast
    simp only [List.getLast?_append, List.append_nil, hdl] at hlast
    have hdig : d.isDigit = true := List.all_eq_true.mp h2.2 d (List.mem_of_getLast?_eq_some hdl)
    have : d = '|' := by
      have hp : (['|', '|'] : List Char).getLast? = some '|' := by decide
      rw [hp] at hlast
      simp [Option.or] at hlast
      exact hlast.symm
    rw [this] at hdig
    exact absurd hdig (by decide)
  · exfalso
    have h2d : n2.data = [] := congrArg String.data h2
    have h1ne : n1.data ≠ [] := by
      intro hz
      rw [hz] at h1
      cases h1.1
    obtain ⟨d, hdl⟩ := Option.isSome_iff_exists.mp (List.getLast?_isSome.mpr h1ne)
    have hlast := congrArg List.getLast? hd
    rw [h2d] at hlast
    simp only [List.getLast?_append, List.append_nil, hdl] at hlast
    have hdig : d.isDigit = true := List.all_eq_true.mp h1.2 d (List.mem_of_getLast?_eq_some hdl)
    have : d = '|' := by
      have hp : (['|', '|'] : List Char).getLast? = some '|' := by decide
      rw [hp] at hlast
      simp [Option.or] at hlast
      exact hlast
    rw [this] at hdig
    exact absurd hdig (by decide)
  · have hlen : A.data.length = B.data.length := by
      have := congrArg List.length hd
      simp only [List.length_append, List.length_cons, h1.1, h2.1] at this
      omega
    have htail := List.append_inj_right hd hlen
    have : n1.data = n2.data := by
      simpa using htail
    exact String.ext this

/-- Claim C7: two title cells equal after cleaning (smart-quote
normalization, trimming, whitespace collapsing) and lowercasing, combined
with year cells equal after year normalization, give the same lookup key;
keys with different normalized years always differ; in particular the key
of ("Inception", "2010") equals the key of ("  inception ", "2010") and
differs from the key of ("Inception", "2011"). -/
theorem claim_C7 :
    (∀ t1 t2 y1 y2 : Option String,
        strLower (clean_text t1) = strLower (clean_text t2) →
        normalize_year y1 = normalize_year y2 →
        pipelineKey t1 y1 = pipelineKey t2 y2)
    ∧ (∀ t1 t2 y1 y2 : Option String,
        normalize_year y1 ≠ normalize_year y2 →
        pipelineKey t1 y1 ≠ pipelineKey t2 y2)
    ∧ pipelineKey (some "Inception") (some "2010")
        = pipelineKey (some "  inception ") (some "2010")
    ∧ pipelineKey (some "Inception") (some "2010")
        ≠ pipelineKey (some "Inception") (some "2011") := by
  refine ⟨?_, ?_, by decide, by decide⟩
  · intro t1 t2 y1 y2 h1 h2
    rw [pipelineKey_eq, pipelineKey_eq, h1, h2]
  · intro t1 t2 y1 y2 hne heq
    apply hne
    rw [pipelineKey_eq, pipelineKey_eq] at heq
    exact year_suffix_inj (ny_shape y1) (ny_shape y2) heq

/-- Witness for claim C7 at concrete inputs. -/
theorem claim_C7_witness :
    pipelineKey (some "The Matrix") (some " 1999")
      = pipelineKey (some "  the matrix") (some "1999")
    ∧ pipelineKey (some "A") (some "1999") ≠ pipelineKey (some "B") (some "2000") :=
  ⟨claim_C7.1 (some "The Matrix") (some "  the matrix") (some " 1999") (some "1999")
      (by decide) (by decide),
    claim_C7.2.1 (some "A") (some "B") (some "1999") (some "2000") (by decide)⟩

end MovieList

namespace MovieList

/-! ## Raw response values, rows, cache -/

/-- A JSON-like value as `json.load` / `response.json()` can produce it: a
JSON object (an association list of string-valued fields, which is what
OMDb returns), or any non-object value, of which the row loop only ever
observes the Python truthiness. -/
inductive PyVal where
  | dict : List (String × String) → PyVal
  | other : Bool → PyVal
deriving DecidableEq

/-- `data.get(k, "")` on an object. -/
def dget (fs : List (String × String)) (k : String) : String :=
  (fs.lookup k).getD ""

/-- The cells of one row that the enrichment loop reads or writes; `none`
models a missing value (`NaN`). -/
structure Row where
  rowCol : Option String
  title : Option String
  year : Option String
  genre : Option String
  imdbRating : Option String
  actors : Option String
  boxOffice : Option String
deriving DecidableEq

/-- `put_if_value` (source lines 55-59): write the cleaned new value only
when it is non-empty. -/
def put_if_value (cur newVal : Option String) : Option String :=
  if clean_text newVal ≠ "" then some (clean_text newVal) else cur

/-- `"NOT FOUND: <err>"` tagging (source lines 197-202): the cleaned error
text is written into `imdbRating` only when that cell is missing or cleans
to the empty string, and the `Row` cell is then set to the 1-based index
(source lines 204-205). -/
def tagNotFound (row : Row) (i : Nat) (err : String) : Row :=
  if row.imdbRating.isNone || clean_text row.imdbRating == "" then
    { row with imdbRating := some ("NOT FOUND: " ++ clean_text (some err)), rowCol := some (toString (i + 1)) }
  else
    { row with rowCol := some (toString (i + 1)) }

/-- Handling of an obtained response value (source lines 170-205): on
`isinstance(data, dict) and data.get("Response") == "True"` write the five
enrichable fields through `put_if_value`, skipping `Year` when the query
carried a validated year, then set `Row`; on an object without that flag
or a falsy non-object, tag `imdbRating` via the NOT FOUND path; a truthy
non-object makes `(data or {}).get(...)` raise `AttributeError` inside the
`try` block, which the `except` arm (lines 183-187) turns into an
unconditional `"ERROR: ..."` tag followed by `continue`, so `Row` is not
set. -/
def reconcile (row : Row) (i : Nat) (year : String) (data : PyVal) : Row :=
  match data with
  | .dict fs =>
    if fs.lookup "Response" == some "True" then
      let r1 :=
        if year = "" then { row with year := put_if_value row.year (some (dget fs "Year")) }
        else row
      let r2 := { r1 with genre := put_if_value r1.genre (some (dget fs "Genre")) }
      let r3 := { r2 with imdbRating := put_if_value r2.imdbRating (some (dget fs "imdbRating")) }
      let r4 := { r3 with actors := put_if_value r3.actors (some (dget fs "Actors")) }
      let r5 := { r4 with boxOffice := put_if_value r4.boxOffice (some (dget fs "BoxOffice")) }
      { r5 with rowCol := some (toString (i + 1)) }
    else
      tagNotFound row i ((fs.lookup "Error").getD "Unknown")
  | .other b =>
    if b then { row with imdbRating := some "ERROR: AttributeError" }
    else tagNotFound row i "Unknown"

/-- Outcome of one `omdb_get` call as observed by the row loop: a decoded
response value, or a raised exception (fetch exhaustion) with its message. -/
inductive FetchResult where
  | ok : PyVal → FetchResult
  | exn : String → FetchResult
deriving DecidableEq

/-- Observable cache/network events of a run, tagged with the lookup key. -/
inductive Event where
  | skip : Event
  | hit : String → Event
  | fetchOk : String → Event
  | fetchFail : String → Event
  | save : String → Event
deriving DecidableEq

/-- Mutable state of the row loop of `main`: the in-memory cache, the two
counters, the number of `omdb_get` invocations so far (indexing the
oracle), and the event trace. -/
structure PState where
  cache : List (String × PyVal)
  cacheHits : Nat
  apiCalls : Nat
  fetchCount : Nat
  events : List Event

/-- One iteration of the row loop of `main` (source lines 145-205) for the
0-based row index `i`: clean the title (skip the row when empty), compute
the key, serve from cache or consult the remote oracle; a response
obtained from either source is cached-and-saved when fresh and then
reconciled into the row; a raised fetch exhaustion is caught by the
`except` arm, which tags `imdbRating` unconditionally and `continue`s. -/
def processRow (oracle : Nat → FetchResult) (st : PState) (i : Nat) (row : Row) :
    PState × Row :=
  if clean_text row.title = "" then
    ({ st with events := st.events ++ [Event.skip] }, row)
  else
    match st.cache.lookup (pipelineKey row.title row.year) with
    | some data =>
      ({ st with cacheHits := st.cacheHits + 1, events := st.events ++ [Event.hit (pipelineKey row.title row.year)] },
        reconcile row i (normalize_year row.year) data)
    | none =>
      match oracle st.fetchCount with
      | .exn msg =>
        ({ st with fetchCount := st.fetchCount + 1, events := st.events ++ [Event.fetchFail (pipelineKey row.title row.year)] },
          { row with imdbRating := some ("ERROR: " ++ msg) })
      | .ok data =>
        ({ st with cache := st.cache ++ [(pipelineKey row.title row.year, data)], apiCalls := st.apiCalls + 1, fetchCount := st.fetchCount + 1, events := st.events ++ [Event.fetchOk (pipelineKey row.title row.year), Event.save (pipelineKey row.title row.year)] },
          reconcile row i (normalize_year row.year) data)

/-- The row loop of `main`, folding `processRow` over the table. -/
def runRows (oracle : Nat → FetchResult) : PState → Nat → List Row → PState × List Row
  | st, _, [] => (st, [])
  | st, i, row :: rest =>
    let p := processRow oracle st i row
    let q := runRows oracle p.1 (i + 1) rest
    (q.1, p.2 :: q.2)

/-- Loop state at pipeline start: the loaded cache, zeroed counters. -/
def initState (cache0 : List (String × PyVal)) : PState :=
  { cache := cache0, cacheHits := 0, apiCalls := 0, fetchCount := 0, events := [] }

/-- The whole enrichment run over a table, from a given initial cache. -/
def runPipeline (oracle : Nat → FetchResult) (cache0 : List (String × PyVal))
    (rows : List Row) : PState × List Row :=
  runRows oracle (initState cache0) 0 rows

/-- `str.strip()` on a string value. -/
def stripStr (s : String) : String := ⟨stripList s.data⟩

/-- `main` (source lines 126-207): `os.getenv("OMDB_API_KEY", "").strip()`
must be non-empty, otherwise the program exits before any row is
processed; afterwards the whole batch is run. -/
def mainRun (apiKey : String) (oracle : Nat → FetchResult)
    (cache0 : List (String × PyVal)) (rows : List Row) : Option (PState × List Row) :=
  if stripStr apiKey = "" then none
  else some (runPipeline oracle cache0 rows)

/-! ## CacheStore: `load_cache` -/

/-- `load_cache` (source lines 62-69).  The filesystem is abstracted as a
partial map from paths to file contents (`none` = `os.path.exists` is
false) and `open` + `json.load` as a parse function returning `none` when
it raises. -/
def load_cache (path : String) (fileOf : String → Option String)
    (parseJson : String → Option (List (String × PyVal))) : List (String × PyVal) :=
  if path = "" then []
  else
    match fileOf path with
    | none => []
    | some contents => (parseJson contents).getD []

/-! ## EnrichmentClient: `omdb_get` -/

/-- The retry loop of `omdb_get` (source lines 98-111): `remaining`
attempts left, `attempt` is the 0-based index of the next attempt,
`lastErr` the last stored exception message.  Returns the outcome, the
list of sleep durations in seconds (a sleep is executed after EVERY failed
attempt, the last one included), and the number of attempts made. -/
def omdbLoop (transport : Nat → Except String PyVal) :
    Nat → Nat → Option String → Except (Option String) PyVal × List ℚ × Nat
  | 0, _, lastErr => (Except.error lastErr, [], 0)
  | remaining + 1, attempt, _ =>
    match transport attempt with
    | .ok v => (Except.ok v, [], 1)
    | .error e =>
      let rest := omdbLoop transport remaining (attempt + 1) (some e)
      (rest.1, (4 / 5 : ℚ) * 2 ^ attempt :: rest.2.1, rest.2.2 + 1)

/-- `omdb_get` (source lines 94-112): run up to `retries` attempts; when
all fail, raise a single exhaustion error reporting the retry count and
wrapping the last underlying error.  The transport oracle gives each
attempt's outcome: `.ok` a decoded 200-response body, `.error` a network
error, non-200 status or malformed body. -/
def omdb_get (transport : Nat → Except String PyVal) (retries : Nat) :
    Except (Nat × Option String) PyVal × List ℚ × Nat :=
  let r := omdbLoop transport retries 0 none
  (match r.1 with
    | .ok v => Except.ok v
    | .error le => Except.error (retries, le), r.2)

/-! ## `ensure_columns` -/

/-- A data frame: a row count and the columns in order, each a name with
its cells. -/
structure Table where
  nrows : Nat
  cols : List (String × List String)

/-- The required columns of `ensure_columns` (source line 86), in order. -/
def required : List String :=
  ["Row", "Title", "Year", "Genre", "imdbRating", "Actors (Main)", "BoxOffice"]

/-- The loop of `ensure_columns` (source lines 87-89): each required
column not present in the frame is appended, filled with empty strings. -/
def withRequired (t : Table) : List (String × List String) :=
  t.cols ++
    (required.filter (fun c => !(t.cols.map Prod.fst).contains c)).map
      (fun c => (c, List.replicate t.nrows ""))

/-- `extras` of `ensure_columns` (source line 90): the column names not in
the required list, in their original order. -/
def extrasOf (t : Table) : List String :=
  ((withRequired t).map Prod.fst).filter (fun c => !required.contains c)

/-- `ensure_columns` (source lines 85-91): append each missing required
column filled with empty strings, then reindex (`df[required + extras]`)
so the required columns come first, followed by the remaining columns in
their original order. -/
def ensure_columns (t : Table) : Table :=
  { nrows := t.nrows
    cols := (required ++ extrasOf t).filterMap
      (fun c => ((withRequired t).lookup c).map (fun v => (c, v))) }

end MovieList

namespace MovieList

/-- Unfolding of the retry loop against a transport that fails every
attempt with message `msg n` on the attempt of 0-based index `n`. -/
theorem omdbLoop_fail_eq (msg : Nat → String) :
    ∀ (remaining attempt : Nat) (lastErr : Option String),
      omdbLoop (fun n => Except.error (msg n)) remaining attempt lastErr
        = (Except.error
              (match remaining with
                | 0 => lastErr
                | r + 1 => some (msg (attempt + r))),
            (List.range remaining).map (fun k => (4 / 5 : ℚ) * 2 ^ (attempt + k)),
            remaining) := by
  intro remaining
  induction remaining with
  | zero => intro attempt lastErr; simp [omdbLoop]
  | succ r ih =>
    intro attempt lastErr
    simp only [omdbLoop]
    rw [ih (attempt + 1) (some (msg attempt))]
    simp only [Prod.mk.injEq]
    refine ⟨?_, ?_, trivial⟩
    · cases r with
      | zero => simp
      | succ s =>
        show Except.error (some (msg (attempt + 1 + s)))
          = Except.error (some (msg (attempt + (s + 1))))
        rw [Nat.add_assoc, Nat.add_comm 1 s]
    · rw [List.range_succ_eq_map]
      simp only [List.map_cons, List.map_map, pow_zero, Nat.add_zero]
      congr 1
      apply List.map_congr_left
      intro a _
      show (4 / 5 : ℚ) * 2 ^ (attempt + 1 + a) = (4 / 5 : ℚ) * 2 ^ (attempt + (a + 1))
      rw [Nat.add_assoc, Nat.add_comm 1 a]

end MovieList

namespace MovieList

/-- Counterexample to claim C5: with `retries = 3` against a transport
that always fails, the code makes 3 attempts but sleeps THREE times
(0.8s, 1.6s, 3.2s), not twice — the sleep at source line 110 runs after
every failed attempt, the final one included, so there is a sleep that is
not between two consecutive attempts. -/
theorem claim_C5_counterexample :
    (omdb_get (fun _ => Except.error "ConnectionError") 3).2.1.length ≠ 2
    ∧ (omdb_get (fun _ => Except.error "ConnectionError") 3).2.1
        = [4 / 5, 8 / 5, 16 / 5]
    ∧ (omdb_get (fun _ => Except.error "ConnectionError") 3).2.2 = 3
    ∧ (omdb_get (fun _ => Except.error "ConnectionError") 3).1
        = Except.error (3, some "ConnectionError") := by
  refine ⟨by decide, ?_, by decide, rfl⟩
  norm_num [omdb_get, omdbLoop]

/-- Claim C5 (amended): calling `omdb_get` with retry count `retries`
against a transport that always fails makes exactly `retries` attempts,
sleeps `0.8 * 2 ^ (attempt - 1)` seconds after EVERY failed attempt
including the last (so `retries` sleeps in total, not `retries - 1`), and
then raises a single exhaustion error that reports the retry count and
wraps the last underlying error; no error is raised for the individual
failed attempts before exhaustion. -/
theorem claim_C5_amended (retries : Nat) (msg : Nat → String) :
    omdb_get (fun n => Except.error (msg n)) retries
      = (Except.error (retries,
            match retries with
            | 0 => none
            | r + 1 => some (msg r)),
          (List.range retries).map (fun k => (4 / 5 : ℚ) * 2 ^ k),
          retries) := by
  unfold omdb_get
  rw [omdbLoop_fail_eq msg retries 0 none]
  cases retries with
  | zero => simp
  | succ r => simp [Nat.zero_add]

/-- Claim C9: `load_cache` returns the empty mapping when the path is
empty, when the file does not exist, or when the contents fail to parse;
it never raises (it is total by construction, every case returning a
value); when the file exists and parses, the stored mapping is returned. -/
theorem claim_C9 (path : String) (fileOf : String → Option String)
    (parseJson : String → Option (List (String × PyVal))) :
    (path = "" → load_cache path fileOf parseJson = [])
    ∧ (fileOf path = none → load_cache path fileOf parseJson = [])
    ∧ (∀ s, fileOf path = some s → parseJson s = none →
        load_cache path fileOf parseJson = [])
    ∧ (∀ s m, path ≠ "" → fileOf path = some s → parseJson s = some m →
        load_cache path fileOf parseJson = m) := by
  refine ⟨?_, ?_, ?_, ?_⟩
  · intro h; simp [load_cache, h]
  · intro h
    unfold load_cache
    by_cases hp : path = ""
    · simp [hp]
    · simp [hp, h]
  · intro s hf hp
    unfold load_cache
    by_cases hq : path = ""
    · simp [hq]
    · simp [hq, hf, hp]
  · intro s m hq hf hp
    unfold load_cache
    simp [hq, hf, hp]

/-- A concrete one-file filesystem for the claim C9 witness. -/
def wFileOf : String → Option String :=
  fun p => if p = "omdb_cache.json" then some "FILE" else none

/-- A concrete parse function for the claim C9 witness. -/
def wParse : String → Option (List (String × PyVal)) :=
  fun s => if s = "FILE" then some [("inception||2010", PyVal.other false)] else none

/-- Witness for claim C9 at concrete inputs. -/
theorem claim_C9_witness :
    load_cache "omdb_cache.json" wFileOf wParse
      = [("inception||2010", PyVal.other false)]
    ∧ load_cache "" wFileOf wParse = []
    ∧ load_cache "missing.json" wFileOf wParse = [] :=
  ⟨(claim_C9 "omdb_cache.json" wFileOf wParse).2.2.2 "FILE"
      [("inception||2010", PyVal.other false)] (by decide) (by decide) (by decide),
    (claim_C9 "" wFileOf wParse).1 rfl,
    (claim_C9 "missing.json" wFileOf wParse).2.1 (by decide)⟩

end MovieList

namespace MovieList

theorem contains_true_iff {l : List String} {a : String} :
    l.contains a = true ↔ a ∈ l := by
  simp [List.contains_iff_exists_mem_beq]

theorem selection_names (withReq : List (String × List String)) :
    ∀ (L : List String), (∀ c ∈ L, (withReq.lookup c).isSome = true) →
      (L.filterMap (fun c => (withReq.lookup c).map (fun v => (c, v)))).map Prod.fst = L := by
  intro L
  induction L with
  | nil => intro _; rfl
  | cons c L ih =>
    intro h
    obtain ⟨v, hv⟩ := Option.isSome_iff_exists.mp (h c (List.mem_cons_self c L))
    rw [List.filterMap_cons_some (by rw [hv]; rfl)]
    simp only [List.map_cons]
    rw [ih fun d hd => h d (List.mem_cons_of_mem _ hd)]

theorem selection_lookup (withReq : List (String × List String)) (c : String) :
    ∀ (L : List String), (∀ d ∈ L, (withReq.lookup d).isSome = true) → c ∈ L →
      (L.filterMap (fun d => (withReq.lookup d).map (fun v => (d, v)))).lookup c
        = withReq.lookup c := by
  intro L
  induction L with
  | nil => intro _ hc; cases hc
  | cons d L ih =>
    intro h hc
    obtain ⟨v, hv⟩ := Option.isSome_iff_exists.mp (h d (List.mem_cons_self d L))
    rw [List.filterMap_cons_some (by rw [hv]; rfl)]
    by_cases hcd : c = d
    · subst hcd
      rw [List.lookup_cons_self, hv]
    · have hbeq : (c == d) = false := beq_eq_false_iff_ne.mpr hcd
      simp only [List.lookup_cons, hbeq]
      exact ih (fun a ha => h a (List.mem_cons_of_mem _ ha))
        (by rcases List.mem_cons.mp hc with h1 | h1; exact absurd h1 hcd; exact h1)

theorem lookup_map_const {x : List String} :
    ∀ (L : List String) (c : String), c ∈ L →
      (L.map (fun d => (d, x))).lookup c = some x := by
  intro L
  induction L with
  | nil => intro c hc; cases hc
  | cons d L ih =>
    intro c hc
    by_cases hcd : c = d
    · subst hcd
      simp [List.lookup_cons_self]
    · have hbeq : (c == d) = false := beq_eq_false_iff_ne.mpr hcd
      simp only [List.map_cons, List.lookup_cons, hbeq]
      exact ih c (by rcases List.mem_cons.mp hc with h1 | h1; exact absurd h1 hcd; exact h1)

theorem lookup_of_mem_nodup :
    ∀ (l : List (String × List String)), (l.map Prod.fst).Nodup →
      ∀ {c : String} {v : List String}, (c, v) ∈ l → l.lookup c = some v := by
  intro l
  induction l with
  | nil => intro _ _ _ h; cases h
  | cons p l ih =>
    intro hnd c v h
    obtain ⟨d, w⟩ := p
    simp only [List.map_cons, List.nodup_cons] at hnd
    rcases List.mem_cons.mp h with h1 | h1
    · obtain ⟨rfl, rfl⟩ := Prod.mk.injEq .. ▸ h1
      exact List.lookup_cons_self
    · have hcd : c ≠ d := by
        intro he
        subst he
        exact hnd.1 (List.mem_map.mpr ⟨(c, v), h1, rfl⟩)
      have hbeq : (c == d) = false := beq_eq_false_iff_ne.mpr hcd
      simp only [List.lookup_cons, hbeq]
      exact ih hnd.2 h1

end MovieList

namespace MovieList

theorem withRequired_names (t : Table) :
    (withRequired t).map Prod.fst
      = t.cols.map Prod.fst
        ++ required.filter (fun c => !(t.cols.map Prod.fst).contains c) := by
  unfold withRequired
  rw [List.map_append, List.map_map]
  congr 1
  have hcomp : (Prod.fst ∘ fun c : String => (c, List.replicate t.nrows "")) = id := rfl
  rw [hcomp, List.map_id]

theorem extrasOf_eq (t : Table) :
    extrasOf t = (t.cols.map Prod.fst).filter (fun c => !required.contains c) := by
  unfold extrasOf
  rw [withRequired_names, List.filter_append]
  have h2 : (required.filter (fun c => !(t.cols.map Prod.fst).contains c)).filter
      (fun c => !required.contains c) = [] := by
    rw [List.filter_eq_nil_iff]
    intro a ha
    have haq : a ∈ required := (List.mem_filter.mp ha).1
    simp [contains_true_iff, haq]
  rw [h2, List.append_nil]

theorem withRequired_isSome (t : Table) {c : String}
    (hc : c ∈ required ++ extrasOf t) : ((withRequired t).lookup c).isSome = true := by
  have hmem : c ∈ (withRequired t).map Prod.fst := by
    rw [withRequired_names]
    rcases List.mem_append.mp hc with h1 | h1
    · by_cases hn : c ∈ t.cols.map Prod.fst
      · exact List.mem_append.mpr (Or.inl hn)
      · refine List.mem_append.mpr (Or.inr (List.mem_filter.mpr ⟨h1, ?_⟩))
        simp [contains_true_iff, hn]
    · rw [extrasOf_eq] at h1
      exact List.mem_append.mpr (Or.inl (List.mem_filter.mp h1).1)
  rw [List.lookup_isSome_iff]
  rcases List.mem_map.mp hmem with ⟨p, hp, hfst⟩
  exact ⟨p, hp, by simp [hfst]⟩

theorem ensure_names (t : Table) :
    (ensure_columns t).cols.map Prod.fst = required ++ extrasOf t := by
  unfold ensure_columns
  exact selection_names _ _ fun c hc => withRequired_isSome t hc

end MovieList

namespace MovieList

/-- Claim C10: `ensure_columns` returns a table whose seven required
columns (Row, Title, Year, Genre, imdbRating, Actors (Main), BoxOffice)
come first in exactly that order, followed by all remaining source
columns in their original relative order; a required column missing from
the source is added with every cell the empty string; pre-existing
columns keep their cell values; consequently the output column order
differs from the input whenever an extra column preceded a required one. -/
theorem claim_C10 (t : Table) (hnd : (t.cols.map Prod.fst).Nodup) :
    (ensure_columns t).cols.map Prod.fst
        = required ++ (t.cols.map Prod.fst).filter (fun c => !required.contains c)
    ∧ (ensure_columns t).nrows = t.nrows
    ∧ (∀ c, c ∈ required → c ∉ t.cols.map Prod.fst →
        (ensure_columns t).cols.lookup c = some (List.replicate t.nrows ""))
    ∧ (∀ c v, (c, v) ∈ t.cols → (ensure_columns t).cols.lookup c = some v)
    ∧ (∀ e r l1 l2 l3, t.cols.map Prod.fst = l1 ++ (e :: l2) ++ (r :: l3) →
        e ∉ required → r ∈ required →
        (ensure_columns t).cols.map Prod.fst ≠ t.cols.map Prod.fst) := by
  refine ⟨by rw [ensure_names, extrasOf_eq], rfl, ?_, ?_, ?_⟩
  · intro c hcr hcn
    have hsel : (ensure_columns t).cols.lookup c = (withRequired t).lookup c := by
      unfold ensure_columns
      exact selection_lookup _ c _ (fun d hd => withRequired_isSome t hd)
        (List.mem_append.mpr (Or.inl hcr))
    rw [hsel]
    unfold withRequired
    rw [List.lookup_append]
    have h1 : t.cols.lookup c = none := by
      rw [List.lookup_eq_none_iff]
      intro p hp
      simp only [bne_iff_ne, ne_eq]
      intro he
      exact hcn (he ▸ List.mem_map.mpr ⟨p, hp, rfl⟩)
    have h2 : ((required.filter (fun d => !(t.cols.map Prod.fst).contains d)).map
        (fun d => (d, List.replicate t.nrows ""))).lookup c
          = some (List.replicate t.nrows "") := by
      apply lookup_map_const
      refine List.mem_filter.mpr ⟨hcr, ?_⟩
      simp [contains_true_iff, hcn]
    rw [h1, h2]
    rfl
  · intro c v hcv
    have hcn : c ∈ t.cols.map Prod.fst := List.mem_map.mpr ⟨(c, v), hcv, rfl⟩
    have hcm : c ∈ required ++ extrasOf t := by
      by_cases hcr : c ∈ required
      · exact List.mem_append.mpr (Or.inl hcr)
      · refine List.mem_append.mpr (Or.inr ?_)
        rw [extrasOf_eq]
        refine List.mem_filter.mpr ⟨hcn, ?_⟩
        simp [contains_true_iff, hcr]
    have hsel : (ensure_columns t).cols.lookup c = (withRequired t).lookup c := by
      unfold ensure_columns
      exact selection_lookup _ c _ (fun d hd => withRequired_isSome t hd) hcm
    rw [hsel]
    unfold withRequired
    rw [List.lookup_append, lookup_of_mem_nodup t.cols hnd hcv]
    rfl
  · intro e r l1 l2 l3 hdec he hr heq
    have hnames : t.cols.map Prod.fst
        = required ++ (t.cols.map Prod.fst).filter (fun c => !required.contains c) := by
      have h1 := ensure_names t
      rw [heq, extrasOf_eq] at h1
      exact h1
    have hE : (t.cols.map Prod.fst)[l1.length]? = some e := by
      rw [hdec, List.append_assoc, List.getElem?_append_right (Nat.le_refl _)]
      simp
    have hp : (t.cols.map Prod.fst)[(l1 ++ e :: l2).length]? = some r := by
      rw [hdec, List.getElem?_append_right (Nat.le_refl _)]
      simp
    by_cases hlen : l1.length < required.length
    · apply he
      rw [hnames, List.getElem?_append_left hlen] at hE
      exact List.getElem?_mem hE
    · have hlen2 : required.length ≤ (l1 ++ e :: l2).length := by
        simp only [List.length_append, List.length_cons]
        omega
      rw [hnames, List.getElem?_append_right hlen2] at hp
      have hrmem := List.getElem?_mem hp
      have hfa := (List.mem_filter.mp hrmem).2
      simp only [Bool.not_eq_true'] at hfa
      have hcr := contains_true_iff.mpr hr
      rw [hfa] at hcr
      exact Bool.false_ne_true hcr

/-- A concrete frame for the claim C10 witness: an extra column precedes
the required `Title` column, and the other required columns are absent. -/
def wTable : Table :=
  { nrows := 2, cols := [("Extra", ["x", "y"]), ("Title", ["A", "B"])] }

/-- Witness for claim C10 at a concrete frame. -/
theorem claim_C10_witness :
    (ensure_columns wTable).cols.map Prod.fst
        = required ++ ["Extra"]
    ∧ (ensure_columns wTable).cols.lookup "Year" = some ["", ""]
    ∧ (ensure_columns wTable).cols.lookup "Title" = some ["A", "B"]
    ∧ (ensure_columns wTable).cols.map Prod.fst ≠ wTable.cols.map Prod.fst := by
  have h := claim_C10 wTable (by decide)
  refine ⟨?_, ?_, ?_, ?_⟩
  · rw [h.1]; rfl
  · exact h.2.2.1 "Year" (by decide) (by decide)
  · exact h.2.2.2.1 "Title" ["A", "B"] (by decide)
  · exact h.2.2.2.2 "Extra" "Title" [] [] [] (by decide) (by decide) (by decide)

end MovieList

namespace MovieList

/-- `isinstance(data, dict) and data.get("Response") == "True"` (source
lines 171 and 190). -/
def respOk : PyVal → Bool
  | .dict fs => fs.lookup "Response" == some "True"
  | .other _ => false

/-- Whether evaluating `(data or {}).get("Error", "Unknown")` raises: it
does exactly when `data` is a truthy non-object (`AttributeError`). -/
def raisesAttr : PyVal → Bool
  | .dict _ => false
  | .other b => b

/-- A plain input row with only a title. -/
def wRowInception : Row :=
  { rowCol := none, title := some "Inception", year := none, genre := none,
    imdbRating := none, actors := none, boxOffice := none }

/-- An input row that already carries a non-empty rating. -/
def wRowRated : Row :=
  { rowCol := none, title := some "X", year := none, genre := none,
    imdbRating := some "8.8", actors := none, boxOffice := none }

theorem runRows_len (oracle : Nat → FetchResult) :
    ∀ (rows : List Row) (st : PState) (i : Nat),
      (runRows oracle st i rows).2.length = rows.length := by
  intro rows
  induction rows with
  | nil => intro st i; rfl
  | cons row rest ih =>
    intro st i
    simp only [runRows]
    rw [List.length_cons, ih, List.length_cons]

/-- Claim C2: with the access credential present at startup, `main`
processes the whole batch; for every remote behaviour — fetch exhaustion,
logical not-found, malformed or non-object cached or remote response
values — the run completes and the output holds exactly one row per input
row, because every per-row failure is absorbed by the `except` arm of the
loop (source lines 183-187).  Totality of the embedded run is the
no-abort property. -/
theorem claim_C2 (apiKey : String) (oracle : Nat → FetchResult)
    (cache0 : List (String × PyVal)) (rows : List Row)
    (hkey : stripStr apiKey ≠ "") :
    ∃ st out, mainRun apiKey oracle cache0 rows = some (st, out)
      ∧ out.length = rows.length := by
  unfold mainRun
  rw [if_neg hkey]
  exact ⟨_, _, rfl, runRows_len oracle rows _ 0⟩

/-- Witness for claim C2: a one-row batch whose only fetch fails is still
fully processed. -/
theorem claim_C2_witness :
    stripStr "key" ≠ ""
    ∧ ∃ st out, mainRun "key" (fun _ => FetchResult.exn "boom") [] [wRowInception]
        = some (st, out) ∧ out.length = 1 :=
  ⟨by decide, claim_C2 "key" (fun _ => FetchResult.exn "boom") [] [wRowInception] (by decide)⟩

end MovieList

namespace MovieList

/-- Does an event concern the given lookup key? -/
def touchesKey (key : String) : Event → Bool
  | .hit k => k == key
  | .fetchOk k => k == key
  | .fetchFail k => k == key
  | .save k => k == key
  | .skip => false

/-- The subsequence of a run's events concerning one lookup key. -/
def keyTrace (key : String) (evs : List Event) : List Event :=
  evs.filter (touchesKey key)

/-- Is the event a fetch invocation (resolved or raised) for the key? -/
def isFetchOf (key : String) : Event → Bool
  | .fetchOk k => k == key
  | .fetchFail k => k == key
  | _ => false

/-- Invariant tying a key's cache status to the shape of its event trace:
an initially-cached key sees only hits; an uncached key sees only failed
fetches until one fetch resolves and is saved, after which every event
for the key is a hit. -/
def KeyState (key : String) (inCache0 : Prop) (st : PState) : Prop :=
  (inCache0 ∧ (st.cache.lookup key).isSome = true
      ∧ ∃ b, keyTrace key st.events = List.replicate b (Event.hit key))
  ∨ (¬inCache0 ∧ st.cache.lookup key = none
      ∧ ∃ a, keyTrace key st.events = List.replicate a (Event.fetchFail key))
  ∨ (¬inCache0 ∧ (st.cache.lookup key).isSome = true
      ∧ ∃ a b, keyTrace key st.events
          = List.replicate a (Event.fetchFail key)
            ++ Event.fetchOk key :: Event.save key :: List.replicate b (Event.hit key))

theorem keyTrace_append (key : String) (evs1 evs2 : List Event) :
    keyTrace key (evs1 ++ evs2) = keyTrace key evs1 ++ keyTrace key evs2 := by
  unfold keyTrace
  exact List.filter_append evs1 evs2

theorem KeyState_mk (key : String) (inC : Prop) (st : PState)
    (c : List (String × PyVal)) (h1 a1 f1 : Nat) (newEvs : List Event)
    (hcache : c.lookup key = st.cache.lookup key)
    (hnew : keyTrace key newEvs = [])
    (h : KeyState key inC st) :
    KeyState key inC
      { cache := c, cacheHits := h1, apiCalls := a1, fetchCount := f1,
        events := st.events ++ newEvs } := by
  have htr : keyTrace key (st.events ++ newEvs) = keyTrace key st.events := by
    rw [keyTrace_append, hnew, List.append_nil]
  unfold KeyState at h ⊢
  dsimp only
  rw [htr, hcache]
  exact h

theorem KeyState_hit (key : String) (inC : Prop) (st : PState) (h1 a1 f1 : Nat)
    (hlk : (st.cache.lookup key).isSome = true) (h : KeyState key inC st) :
    KeyState key inC
      { cache := st.cache, cacheHits := h1, apiCalls := a1, fetchCount := f1,
        events := st.events ++ [Event.hit key] } := by
  have hone : keyTrace key [Event.hit key] = [Event.hit key] := by
    simp [keyTrace, touchesKey]
  unfold KeyState at h ⊢
  dsimp only
  rw [keyTrace_append, hone]
  rcases h with ⟨x, y, b, z⟩ | ⟨x, y, a, z⟩ | ⟨x, y, a, b, z⟩
  · refine Or.inl ⟨x, y, b + 1, ?_⟩
    rw [z, List.replicate_succ']
  · rw [y] at hlk
    cases hlk
  · refine Or.inr (Or.inr ⟨x, y, a, b + 1, ?_⟩)
    rw [z, List.replicate_succ' b, List.append_assoc]
    simp

theorem KeyState_fail (key : String) (inC : Prop) (st : PState) (f1 : Nat)
    (hlk : st.cache.lookup key = none) (h : KeyState key inC st) :
    KeyState key inC
      { cache := st.cache, cacheHits := st.cacheHits, apiCalls := st.apiCalls,
        fetchCount := f1, events := st.events ++ [Event.fetchFail key] } := by
  have hone : keyTrace key [Event.fetchFail key] = [Event.fetchFail key] := by
    simp [keyTrace, touchesKey]
  unfold KeyState at h ⊢
  dsimp only
  rw [keyTrace_append, hone]
  rcases h with ⟨_, y, _⟩ | ⟨x, y, a, z⟩ | ⟨_, y, _⟩
  · rw [hlk] at y; cases y
  · refine Or.inr (Or.inl ⟨x, y, a + 1, ?_⟩)
    rw [z, List.replicate_succ']
  · rw [hlk] at y; cases y

theorem KeyState_fetch (key : String) (inC : Prop) (st : PState)
    (data : PyVal) (a1 f1 : Nat)
    (hlk : st.cache.lookup key = none) (h : KeyState key inC st) :
    KeyState key inC
      { cache := st.cache ++ [(key, data)], cacheHits := st.cacheHits,
        apiCalls := a1, fetchCount := f1,
        events := st.events ++ [Event.fetchOk key, Event.save key] } := by
  have htwo : keyTrace key [Event.fetchOk key, Event.save key]
      = [Event.fetchOk key, Event.save key] := by
    simp [keyTrace, touchesKey]
  have hsome : ((st.cache ++ [(key, data)]).lookup key).isSome = true := by
    rw [List.lookup_append, hlk, List.lookup_cons_self]
    rfl
  unfold KeyState at h ⊢
  dsimp only
  rw [keyTrace_append, htwo]
  rcases h with ⟨_, y, _⟩ | ⟨x, y, a, z⟩ | ⟨_, y, _⟩
  · rw [hlk] at y; cases y
  · refine Or.inr (Or.inr ⟨x, hsome, a, 0, ?_⟩)
    rw [z]
    rfl
  · rw [hlk] at y; cases y

end MovieList

namespace MovieList

theorem processRow_keyState (oracle : Nat → FetchResult) (key : String) (inC : Prop)
    (st : PState) (i : Nat) (row : Row) (h : KeyState key inC st) :
    KeyState key inC (processRow oracle st i row).1 := by
  unfold processRow
  by_cases ht : clean_text row.title = ""
  · rw [if_pos ht]
    exact KeyState_mk key inC st st.cache _ _ _ [Event.skip] rfl rfl h
  · rw [if_neg ht]
    split
    · rename_i data heq
      by_cases hkk : pipelineKey row.title row.year = key
      · rw [hkk] at heq ⊢
        exact KeyState_hit key inC st _ _ _ (by rw [heq]; rfl) h
      · have hb : (pipelineKey row.title row.year == key) = false :=
          beq_eq_false_iff_ne.mpr hkk
        refine KeyState_mk key inC st st.cache _ _ _
          [Event.hit (pipelineKey row.title row.year)] rfl ?_ h
        simp [keyTrace, touchesKey, hb]
    · rename_i heq
      split
      · rename_i msg horc
        by_cases hkk : pipelineKey row.title row.year = key
        · rw [hkk] at heq ⊢
          exact KeyState_fail key inC st _ heq h
        · have hb : (pipelineKey row.title row.year == key) = false :=
            beq_eq_false_iff_ne.mpr hkk
          refine KeyState_mk key inC st st.cache _ _ _
            [Event.fetchFail (pipelineKey row.title row.year)] rfl ?_ h
          simp [keyTrace, touchesKey, hb]
      · rename_i data horc
        by_cases hkk : pipelineKey row.title row.year = key
        · rw [hkk] at heq ⊢
          exact KeyState_fetch key inC st data _ _ heq h
        · have hb : (pipelineKey row.title row.year == key) = false :=
            beq_eq_false_iff_ne.mpr hkk
          have hb2 : (key == pipelineKey row.title row.year) = false :=
            beq_eq_false_iff_ne.mpr fun he => hkk he.symm
          refine KeyState_mk key inC st
            (st.cache ++ [(pipelineKey row.title row.year, data)]) _ _ _
            [Event.fetchOk (pipelineKey row.title row.year),
              Event.save (pipelineKey row.title row.year)] ?_ ?_ h
          · rw [List.lookup_append]
            have hnone : ([(pipelineKey row.title row.year, data)].lookup key)
                = none := by
              simp [List.lookup_cons, hb2]
            rw [hnone, Option.or_none]
          · simp [keyTrace, touchesKey, hb]

theorem runRows_keyState (oracle : Nat → FetchResult) (key : String) (inC : Prop) :
    ∀ (rows : List Row) (st : PState) (i : Nat), KeyState key inC st →
      KeyState key inC (runRows oracle st i rows).1 := by
  intro rows
  induction rows with
  | nil => intro st i h; exact h
  | cons row rest ih =>
    intro st i h
    simp only [runRows]
    exact ih _ _ (processRow_keyState oracle key inC st i row h)

end MovieList

namespace MovieList

/-- Claim C1 (amended): in every run, from any initial cache, a key
already cached on entry is only ever served as cache hits (no fetch, no
save); for a key not initially cached, the run's events for that key are
some number of RAISED fetches (exhaustion, which caches nothing), then at
most one fetch that obtains a response (logical success or API-reported
not-found) immediately followed by exactly one cache save, after which
every later row with that key is a cache hit with no fetch and no save.
So at most one response-producing fetch per key — but a fetch that raises
does not populate the cache, and the key can be fetched again by a later
row, which is what the original claim rules out. -/
theorem claim_C1_amended (oracle : Nat → FetchResult) (cache0 : List (String × PyVal))
    (rows : List Row) (key : String) :
    ((cache0.lookup key).isSome = true →
      ∃ b, keyTrace key (runPipeline oracle cache0 rows).1.events
        = List.replicate b (Event.hit key))
    ∧ (cache0.lookup key = none →
      (∃ a, keyTrace key (runPipeline oracle cache0 rows).1.events
          = List.replicate a (Event.fetchFail key))
      ∨ (∃ a b, keyTrace key (runPipeline oracle cache0 rows).1.events
          = List.replicate a (Event.fetchFail key)
            ++ Event.fetchOk key :: Event.save key
              :: List.replicate b (Event.hit key))) := by
  constructor
  · intro hc
    have h0 : KeyState key ((cache0.lookup key).isSome = true) (initState cache0) :=
      Or.inl ⟨hc, hc, 0, rfl⟩
    have hf := runRows_keyState oracle key _ rows (initState cache0) 0 h0
    rcases hf with ⟨_, _, hb⟩ | ⟨hnc, _, _⟩ | ⟨hnc, _, _⟩
    · exact hb
    · exact absurd hc hnc
    · exact absurd hc hnc
  · intro hc
    have hnc : ¬((cache0.lookup key).isSome = true) := by rw [hc]; simp
    have h0 : KeyState key ((cache0.lookup key).isSome = true) (initState cache0) :=
      Or.inr (Or.inl ⟨hnc, hc, 0, rfl⟩)
    have hf := runRows_keyState oracle key _ rows (initState cache0) 0 h0
    rcases hf with ⟨hic, _, _⟩ | ⟨_, _, a, ha⟩ | ⟨_, _, a, b, hab⟩
    · exact absurd hic hnc
    · exact Or.inl ⟨a, ha⟩
    · exact Or.inr ⟨a, b, hab⟩

/-- Witness for claim C1 (amended) at concrete runs. -/
theorem claim_C1_witness :
    (∃ b, keyTrace "inception||"
        (runPipeline (fun _ => FetchResult.exn "boom")
          [("inception||", PyVal.other false)] [wRowInception]).1.events
      = List.replicate b (Event.hit "inception||"))
    ∧ ((∃ a, keyTrace "inception||"
          (runPipeline (fun _ => FetchResult.exn "boom") []
            [wRowInception, wRowInception]).1.events
        = List.replicate a (Event.fetchFail "inception||"))
      ∨ (∃ a b, keyTrace "inception||"
          (runPipeline (fun _ => FetchResult.exn "boom") []
            [wRowInception, wRowInception]).1.events
        = List.replicate a (Event.fetchFail "inception||")
          ++ Event.fetchOk "inception||" :: Event.save "inception||"
            :: List.replicate b (Event.hit "inception||"))) :=
  ⟨(claim_C1_amended (fun _ => FetchResult.exn "boom")
      [("inception||", PyVal.other false)] [wRowInception] "inception||").1 (by decide),
    (claim_C1_amended (fun _ => FetchResult.exn "boom") []
      [wRowInception, wRowInception] "inception||").2 (by decide)⟩

/-- Counterexample to claim C1: from an empty cache, a table holding the
same title twice, and a remote endpoint whose fetch always raises
(exhaustion), the raised first fetch caches nothing, so the second row
with the same key invokes the remote fetch AGAIN — two fetch invocations
for one key in a single run, against the claimed at-most-one. -/
theorem claim_C1_counterexample :
    pipelineKey wRowInception.title wRowInception.year = "inception||"
    ∧ (runPipeline (fun _ => FetchResult.exn "boom") []
        [wRowInception, wRowInception]).1.fetchCount = 2
    ∧ ((runPipeline (fun _ => FetchResult.exn "boom") []
        [wRowInception, wRowInception]).1.events.countP
          (fun e => isFetchOf "inception||" e)) = 2 := by
  refine ⟨by decide, by decide, by decide⟩

end MovieList

namespace MovieList

theorem tagCond_iff (row : Row) :
    (row.imdbRating.isNone || clean_text row.imdbRating == "") = true
      ↔ clean_text row.imdbRating = "" := by
  cases hr : row.imdbRating with
  | none => simp [clean_text]
  | some s => simp

theorem tagNotFound_fields (row : Row) (i : Nat) (err : String) :
    (tagNotFound row i err).year = row.year
    ∧ (tagNotFound row i err).genre = row.genre
    ∧ (tagNotFound row i err).actors = row.actors
    ∧ (tagNotFound row i err).boxOffice = row.boxOffice
    ∧ (tagNotFound row i err).rowCol = some (toString (i + 1))
    ∧ (clean_text row.imdbRating ≠ "" →
        (tagNotFound row i err).imdbRating = row.imdbRating)
    ∧ (clean_text row.imdbRating = "" →
        (tagNotFound row i err).imdbRating
          = some ("NOT FOUND: " ++ clean_text (some err))) := by
  unfold tagNotFound
  by_cases hcond : (row.imdbRating.isNone || clean_text row.imdbRating == "") = true
  · rw [if_pos hcond]
    have hclean := (tagCond_iff row).mp hcond
    exact ⟨rfl, rfl, rfl, rfl, rfl, fun hne => absurd hclean hne, fun _ => rfl⟩
  · rw [if_neg hcond]
    have hclean : clean_text row.imdbRating ≠ "" :=
      fun he => hcond ((tagCond_iff row).mpr he)
    exact ⟨rfl, rfl, rfl, rfl, rfl, fun _ => rfl, fun he => absurd he hclean⟩

theorem reconcile_notfound (row : Row) (i : Nat) (year : String)
    (fs : List (String × String))
    (hng : (fs.lookup "Response" == some "True") = false) :
    reconcile row i year (PyVal.dict fs)
      = tagNotFound row i ((fs.lookup "Error").getD "Unknown") := by
  simp [reconcile, hng]

theorem reconcile_other_false (row : Row) (i : Nat) (year : String) :
    reconcile row i year (PyVal.other false) = tagNotFound row i "Unknown" := rfl

theorem reconcile_other_true (row : Row) (i : Nat) (year : String) :
    reconcile row i year (PyVal.other true)
      = { row with imdbRating := some "ERROR: AttributeError" } := rfl

theorem processRow_snd_hit (oracle : Nat → FetchResult) (st : PState) (i : Nat)
    (row : Row) (data : PyVal) (htitle : clean_text row.title ≠ "")
    (heq : st.cache.lookup (pipelineKey row.title row.year) = some data) :
    (processRow oracle st i row).2
      = reconcile row i (normalize_year row.year) data := by
  unfold processRow
  rw [if_neg htitle, heq]

theorem processRow_snd_fetch (oracle : Nat → FetchResult) (st : PState) (i : Nat)
    (row : Row) (data : PyVal) (htitle : clean_text row.title ≠ "")
    (heq : st.cache.lookup (pipelineKey row.title row.year) = none)
    (horc : oracle st.fetchCount = FetchResult.ok data) :
    (processRow oracle st i row).2
      = reconcile row i (normalize_year row.year) data := by
  unfold processRow
  rw [if_neg htitle, heq, horc]

theorem processRow_snd_exn (oracle : Nat → FetchResult) (st : PState) (i : Nat)
    (row : Row) (msg : String) (htitle : clean_text row.title ≠ "")
    (heq : st.cache.lookup (pipelineKey row.title row.year) = none)
    (horc : oracle st.fetchCount = FetchResult.exn msg) :
    (processRow oracle st i row).2
      = { row with imdbRating := some ("ERROR: " ++ msg) } := by
  unfold processRow
  rw [if_neg htitle, heq, horc]

theorem reconcile_fail_frame (row : Row) (i : Nat) (year : String) (data : PyVal)
    (hng : respOk data = false) (hra : raisesAttr data = false) :
    (reconcile row i year data).year = row.year
    ∧ (reconcile row i year data).genre = row.genre
    ∧ (reconcile row i year data).actors = row.actors
    ∧ (reconcile row i year data).boxOffice = row.boxOffice
    ∧ (clean_text row.imdbRating ≠ "" →
        (reconcile row i year data).imdbRating = row.imdbRating)
    ∧ (clean_text row.imdbRating = "" →
        ∃ e, (reconcile row i year data).imdbRating
          = some ("NOT FOUND: " ++ e)) := by
  cases data with
  | dict fs =>
    have hng2 : (fs.lookup "Response" == some "True") = false := by
      simpa [respOk] using hng
    rw [reconcile_notfound row i year fs hng2]
    have ht := tagNotFound_fields row i ((fs.lookup "Error").getD "Unknown")
    exact ⟨ht.1, ht.2.1, ht.2.2.1, ht.2.2.2.1, ht.2.2.2.2.2.1,
      fun he => ⟨_, ht.2.2.2.2.2.2 he⟩⟩
  | other b =>
    cases b with
    | false =>
      rw [reconcile_other_false]
      have ht := tagNotFound_fields row i "Unknown"
      exact ⟨ht.1, ht.2.1, ht.2.2.1, ht.2.2.2.1, ht.2.2.2.2.2.1,
        fun he => ⟨_, ht.2.2.2.2.2.2 he⟩⟩
    | true => cases hra

end MovieList

namespace MovieList

/-- Counterexample to claim C3: a row already holding the non-empty rating
"8.8" whose fetch permanently fails gets its rating OVERWRITTEN by the
"ERROR: ..." placeholder — the except arm (source line 186) writes
unconditionally, so the only-if-empty guard does not cover the error
placeholder. -/
theorem claim_C3_counterexample :
    clean_text wRowRated.imdbRating = "8.8"
    ∧ (processRow (fun _ => FetchResult.exn "boom") (initState []) 0 wRowRated).2.imdbRating
        = some "ERROR: boom"
    ∧ (processRow (fun _ => FetchResult.exn "boom") (initState []) 0 wRowRated).2.imdbRating
        ≠ wRowRated.imdbRating := by
  refine ⟨by decide, by decide, by decide⟩

/-- Claim C3 (amended): on any failure outcome the only enrichable field
the merge writes is `imdbRating`; the `"NOT FOUND: <error text>"`
placeholder of a logical failure is written only when `imdbRating` is
currently missing or cleans to empty, never over a non-empty rating; but
the `"ERROR: <error text>"` placeholder of the `except` arm — fetch
exhaustion, or the `AttributeError` a truthy non-object response raises —
is written UNCONDITIONALLY, overwriting any previous rating. -/
theorem claim_C3_amended (oracle : Nat → FetchResult) (st : PState) (i : Nat)
    (row : Row) (htitle : clean_text row.title ≠ "") :
    (∀ data,
      (st.cache.lookup (pipelineKey row.title row.year) = some data
        ∨ (st.cache.lookup (pipelineKey row.title row.year) = none
            ∧ oracle st.fetchCount = FetchResult.ok data)) →
      respOk data = false → raisesAttr data = false →
        (processRow oracle st i row).2.year = row.year
        ∧ (processRow oracle st i row).2.genre = row.genre
        ∧ (processRow oracle st i row).2.actors = row.actors
        ∧ (processRow oracle st i row).2.boxOffice = row.boxOffice
        ∧ (clean_text row.imdbRating ≠ "" →
            (processRow oracle st i row).2.imdbRating = row.imdbRating)
        ∧ (clean_text row.imdbRating = "" →
            ∃ e, (processRow oracle st i row).2.imdbRating
              = some ("NOT FOUND: " ++ e)))
    ∧ (∀ msg,
      st.cache.lookup (pipelineKey row.title row.year) = none →
      oracle st.fetchCount = FetchResult.exn msg →
        (processRow oracle st i row).2.imdbRating = some ("ERROR: " ++ msg)
        ∧ (processRow oracle st i row).2.year = row.year
        ∧ (processRow oracle st i row).2.genre = row.genre
        ∧ (processRow oracle st i row).2.actors = row.actors
        ∧ (processRow oracle st i row).2.boxOffice = row.boxOffice)
    ∧ (∀ data,
      (st.cache.lookup (pipelineKey row.title row.year) = some data
        ∨ (st.cache.lookup (pipelineKey row.title row.year) = none
            ∧ oracle st.fetchCount = FetchResult.ok data)) →
      raisesAttr data = true →
        (processRow oracle st i row).2.imdbRating = some "ERROR: AttributeError"
        ∧ (processRow oracle st i row).2.year = row.year
        ∧ (processRow oracle st i row).2.genre = row.genre
        ∧ (processRow oracle st i row).2.actors = row.actors
        ∧ (processRow oracle st i row).2.boxOffice = row.boxOffice) := by
  refine ⟨?_, ?_, ?_⟩
  · intro data hsrc hng hra
    have hout : (processRow oracle st i row).2
        = reconcile row i (normalize_year row.year) data := by
      rcases hsrc with heq | ⟨heq, horc⟩
      · exact processRow_snd_hit oracle st i row data htitle heq
      · exact processRow_snd_fetch oracle st i row data htitle heq horc
    rw [hout]
    exact reconcile_fail_frame row i _ data hng hra
  · intro msg heq horc
    rw [processRow_snd_exn oracle st i row msg htitle heq horc]
    exact ⟨rfl, rfl, rfl, rfl, rfl⟩
  · intro data hsrc hra
    have hout : (processRow oracle st i row).2
        = reconcile row i (normalize_year row.year) data := by
      rcases hsrc with heq | ⟨heq, horc⟩
      · exact processRow_snd_hit oracle st i row data htitle heq
      · exact processRow_snd_fetch oracle st i row data htitle heq horc
    rw [hout]
    cases data with
    | dict fs => cases hra
    | other b =>
      cases b with
      | false => cases hra
      | true =>
        rw [reconcile_other_true]
        exact ⟨rfl, rfl, rfl, rfl, rfl⟩

/-- A logical not-found OMDb response body. -/
def wNotFound : PyVal :=
  PyVal.dict [("Response", "False"), ("Error", "Movie not found!")]

/-- Witness for claim C3 (amended) at concrete runs. -/
theorem claim_C3_witness :
    (processRow (fun _ => FetchResult.exn "boom") (initState []) 0 wRowInception).2.imdbRating
      = some "ERROR: boom"
    ∧ ∃ e, (processRow (fun _ => FetchResult.ok wNotFound) (initState []) 0
        wRowInception).2.imdbRating = some ("NOT FOUND: " ++ e) :=
  ⟨((claim_C3_amended (fun _ => FetchResult.exn "boom") (initState []) 0 wRowInception
      (by decide)).2.1 "boom" rfl rfl).1,
    ((claim_C3_amended (fun _ => FetchResult.ok wNotFound) (initState []) 0 wRowInception
      (by decide)).1 wNotFound (Or.inr ⟨rfl, rfl⟩) (by decide)
      (by decide)).2.2.2.2.2 (by decide)⟩

end MovieList

namespace MovieList

theorem reconcile_rowCol (row : Row) (i : Nat) (year : String) (data : PyVal)
    (hra : raisesAttr data = false) :
    (reconcile row i year data).rowCol = some (toString (i + 1)) := by
  cases data with
  | dict fs =>
    by_cases hok : (fs.lookup "Response" == some "True") = true
    · simp [reconcile, hok]
    · have hng : (fs.lookup "Response" == some "True") = false :=
        Bool.not_eq_true _ ▸ hok
      rw [reconcile_notfound row i year fs hng]
      exact (tagNotFound_fields row i _).2.2.2.2.1
  | other b =>
    cases b with
    | false =>
      rw [reconcile_other_false]
      exact (tagNotFound_fields row i _).2.2.2.2.1
    | true => cases hra

/-- Counterexample to claim C4: the first row of a run is processed (its
cleaned title is non-empty) and its fetch permanently fails; the `except`
arm `continue`s past the `Row` assignment (source lines 187 and 204-205),
so the output row's `Row` cell keeps its old value instead of the claimed
1-based position "1". -/
theorem claim_C4_counterexample :
    clean_text wRowInception.title ≠ ""
    ∧ (processRow (fun _ => FetchResult.exn "boom") (initState []) 0
        wRowInception).2.rowCol = none
    ∧ (processRow (fun _ => FetchResult.exn "boom") (initState []) 0
        wRowInception).2.rowCol ≠ some "1" := by
  refine ⟨by decide, by decide, by decide⟩

/-- Claim C4 (amended): a row whose handling completes without an
exception — a cache hit or a fetch that obtains a response, with a
response value that does not make the print block raise — gets `Row` set
to its 1-based position; a skipped row (empty cleaned title) and a row on
the exception path (fetch exhaustion or a truthy non-object response)
keep their previous `Row` value; and subsequent rows are always processed
(the run yields one output row per input row). -/
theorem claim_C4_amended (oracle : Nat → FetchResult) (st : PState) (i : Nat)
    (row : Row) :
    (clean_text row.title = "" → (processRow oracle st i row).2 = row)
    ∧ (clean_text row.title ≠ "" →
        (∀ data,
          (st.cache.lookup (pipelineKey row.title row.year) = some data
            ∨ (st.cache.lookup (pipelineKey row.title row.year) = none
                ∧ oracle st.fetchCount = FetchResult.ok data)) →
          raisesAttr data = false →
            (processRow oracle st i row).2.rowCol = some (toString (i + 1)))
        ∧ (∀ msg,
          st.cache.lookup (pipelineKey row.title row.year) = none →
          oracle st.fetchCount = FetchResult.exn msg →
            (processRow oracle st i row).2.rowCol = row.rowCol)
        ∧ (∀ data,
          (st.cache.lookup (pipelineKey row.title row.year) = some data
            ∨ (st.cache.lookup (pipelineKey row.title row.year) = none
                ∧ oracle st.fetchCount = FetchResult.ok data)) →
          raisesAttr data = true →
            (processRow oracle st i row).2.rowCol = row.rowCol))
    ∧ (∀ rows : List Row, (runRows oracle st i rows).2.length = rows.length) := by
  refine ⟨?_, ?_, fun rows => runRows_len oracle rows st i⟩
  · intro ht
    unfold processRow
    rw [if_pos ht]
  · intro htitle
    refine ⟨?_, ?_, ?_⟩
    · intro data hsrc hra
      have hout : (processRow oracle st i row).2
          = reconcile row i (normalize_year row.year) data := by
        rcases hsrc with heq | ⟨heq, horc⟩
        · exact processRow_snd_hit oracle st i row data htitle heq
        · exact processRow_snd_fetch oracle st i row data htitle heq horc
      rw [hout]
      exact reconcile_rowCol row i _ data hra
    · intro msg heq horc
      rw [processRow_snd_exn oracle st i row msg htitle heq horc]
    · intro data hsrc hra
      have hout : (processRow oracle st i row).2
          = reconcile row i (normalize_year row.year) data := by
        rcases hsrc with heq | ⟨heq, horc⟩
        · exact processRow_snd_hit oracle st i row data htitle heq
        · exact processRow_snd_fetch oracle st i row data htitle heq horc
      rw [hout]
      cases data with
      | dict fs => cases hra
      | other b =>
        cases b with
        | false => cases hra
        | true => rw [reconcile_other_true]

/-- Witness for claim C4 (amended): a successfully fetched first row gets
`Row` set to "1"; a row whose fetch raises keeps its old `Row` cell. -/
theorem claim_C4_witness :
    (processRow (fun _ => FetchResult.ok wNotFound) (initState []) 0
        wRowInception).2.rowCol = some "1"
    ∧ (processRow (fun _ => FetchResult.exn "boom") (initState []) 0
        wRowInception).2.rowCol = wRowInception.rowCol :=
  ⟨((claim_C4_amended (fun _ => FetchResult.ok wNotFound) (initState []) 0
      wRowInception).2.1 (by decide)).1 wNotFound (Or.inr ⟨rfl, rfl⟩) (by decide),
    ((claim_C4_amended (fun _ => FetchResult.exn "boom") (initState []) 0
      wRowInception).2.1 (by decide)).2.1 "boom" rfl rfl⟩

end MovieList

namespace MovieList

/-- Claim C6: when a row carries an explicit validated 4-digit year (so
`normalize_year` is non-empty and the year was put into the remote
query), a logically successful response NEVER changes the row's `Year`
cell, even when it supplies a different non-empty `Year`; only a row
without a validated year receives the cleaned response `Year`, and then
only when that cleaned value is non-empty. -/
theorem claim_C6 (oracle : Nat → FetchResult) (st : PState) (i : Nat) (row : Row)
    (fs : List (String × String))
    (htitle : clean_text row.title ≠ "")
    (hok : (fs.lookup "Response" == some "True") = true)
    (hsrc : st.cache.lookup (pipelineKey row.title row.year) = some (PyVal.dict fs)
      ∨ (st.cache.lookup (pipelineKey row.title row.year) = none
          ∧ oracle st.fetchCount = FetchResult.ok (PyVal.dict fs))) :
    (normalize_year row.year ≠ "" →
      (processRow oracle st i row).2.year = row.year)
    ∧ (normalize_year row.year = "" →
        (clean_text (some (dget fs "Year")) ≠ "" →
          (processRow oracle st i row).2.year
            = some (clean_text (some (dget fs "Year"))))
        ∧ (clean_text (some (dget fs "Year")) = "" →
          (processRow oracle st i row).2.year = row.year)) := by
  have hout : (processRow oracle st i row).2
      = reconcile row i (normalize_year row.year) (PyVal.dict fs) := by
    rcases hsrc with heq | ⟨heq, horc⟩
    · exact processRow_snd_hit oracle st i row _ htitle heq
    · exact processRow_snd_fetch oracle st i row _ htitle heq horc
  rw [hout]
  constructor
  · intro hy
    simp [reconcile, hok, hy]
  · intro hy
    constructor
    · intro hcy
      simp [reconcile, hok, hy, put_if_value, hcy]
    · intro hcy
      simp [reconcile, hok, hy, put_if_value, hcy]

/-- A logically successful response whose `Year` differs from the row's. -/
def wRespYear : List (String × String) := [("Response", "True"), ("Year", "2000")]

/-- A row with an explicit validated year. -/
def wRowYear : Row :=
  { rowCol := none, title := some "The Matrix", year := some "1999", genre := none,
    imdbRating := none, actors := none, boxOffice := none }

/-- Witness for claim C6: row `Year="1999"`, response `Year="2000"`, the
reconciled row keeps "1999". -/
theorem claim_C6_witness :
    (processRow (fun _ => FetchResult.ok (PyVal.dict wRespYear)) (initState []) 0
      wRowYear).2.year = some "1999" :=
  (claim_C6 (fun _ => FetchResult.ok (PyVal.dict wRespYear)) (initState []) 0 wRowYear
    wRespYear (by decide) (by decide) (Or.inr ⟨rfl, rfl⟩)).1 (by decide)

end MovieList
